import Mathlib

/-!
Verification of the dosage-estimation core of the `dashboard-dosificacion`
application (`src/app.py`).  The core receives a table of
(caudal, turbiedad, dosis) operating points plus three scalars
(turbidez, ph, caudal) and produces an estimated dose, the name of the
fitting method that succeeded, and a turbidity category.

The embedding models the numeric values as exact rationals.  The scipy
routine `splrep`/`splev` (an external library, not code of this repository)
is modelled by its documented contract: the fit with degree `k = 3` and the
default interpolating smoothing factor succeeds exactly when there are more
points than the degree (`m > k`, that is at least 4 points) and the knots
are strictly increasing; the value the fitted spline takes at the query
point is kept abstract as a parameter `splev` of the estimator, since no
verified property depends on it.  The scipy routine `interp1d` with
`fill_value="extrapolate"` is modelled concretely as piecewise-linear
interpolation with linear extrapolation from the end segments; it requires
at least 2 points.
-/

namespace Dosificacion

/-- A raw CSV row as read by `load_data` (`app.py` line 269): the
`caudal` column is used as-is, while `turbiedad` and `dosis_mg_l` are
coerced to numeric with `errors='coerce'`; `none` models a value on which
the numeric coercion failed (a `NaN` after `pd.to_numeric`). -/
structure RawRow where
  caudal : ℚ
  turbiedad : Option ℚ
  dosis_mg_l : Option ℚ
deriving DecidableEq, Repr

/-- A cleaned operating point: one row of the dataframe after
`dropna(subset=['turbiedad', 'dosis_mg_l'])`. -/
structure Row where
  caudal : ℚ
  turbiedad : ℚ
  dosis_mg_l : ℚ
deriving DecidableEq, Repr

/-- Embeds `load_data` (`app.py` lines 269-278): coerce `turbiedad` and
`dosis_mg_l` to numeric and drop the rows where either coercion failed. -/
def load_data (raw : List RawRow) : List Row :=
  raw.filterMap fun r =>
    match r.turbiedad, r.dosis_mg_l with
    | some t, some d => some ⟨r.caudal, t, d⟩
    | _, _ => none

/-- Embeds `caudales_disponibles = sorted(data['caudal'].unique())`
(`app.py` line 683): the distinct flow values in ascending order. -/
def caudales_disponibles (rows : List Row) : List ℚ :=
  ((rows.map Row.caudal).dedup).insertionSort (· ≤ ·)

/-- Embeds `min(caudales_disponibles, key=lambda x: abs(x - caudal))`
(`app.py` line 688).  Python's `min` keeps the first element attaining the
minimal key, which the fold reproduces by replacing the accumulator only on
a strict decrease; `none` models the `else` branch (`app.py` lines
689-691) taken when the list of flows is empty. -/
def mejorCaudal (caudal a : ℚ) (l : List ℚ) : ℚ :=
  l.foldl (fun best x => if |x - caudal| < |best - caudal| then x else best) a

def caudal_calculo (caudal : ℚ) : List ℚ → Option ℚ
  | [] => none
  | c :: cs => some (mejorCaudal caudal c cs)

/-- Arithmetic mean of a list of rationals, the model of pandas `mean()`. -/
def media (l : List ℚ) : ℚ := l.sum / l.length

/-- Embeds the preparation of the per-flow dataset (`app.py` lines
694-704): filter the rows at the selected flow, sort by `turbiedad`, and,
when duplicate turbidity values are present, group by `turbiedad` and
average `dosis_mg_l` (pandas `groupby` sorts the group keys ascending). -/
def data_caudal (rows : List Row) (c : ℚ) : List (ℚ × ℚ) :=
  let filt := (rows.filter fun r => decide (r.caudal = c)).insertionSort
      (fun a b => a.turbiedad ≤ b.turbiedad)
  let xs := filt.map Row.turbiedad
  if xs.dedup.length < xs.length then
    (xs.dedup.insertionSort (· ≤ ·)).map fun t =>
      (t, media (((filt.filter fun r => decide (r.turbiedad = t)).map Row.dosis_mg_l)))
  else
    filt.map fun r => (r.turbiedad, r.dosis_mg_l)

instance : IsTotal Row (fun a b => a.turbiedad ≤ b.turbiedad) :=
  ⟨fun a b => le_total a.turbiedad b.turbiedad⟩

instance : IsTrans Row (fun a b => a.turbiedad ≤ b.turbiedad) :=
  ⟨fun _ _ _ h h' => le_trans h h'⟩

/-- The fitting method recorded in the result (`metodo`, `app.py` lines
711 and 715). -/
inductive Metodo where
  | splineCubico
  | interpolacionLineal
deriving DecidableEq, Repr

/-- The turbidity category (`categoria`, `app.py` lines 721-732). -/
inductive Categoria where
  | baja
  | normal
  | muyAlta
deriving DecidableEq, Repr

/-- Embeds the classification chain of `app.py` lines 721-732:
`if turbidez < 10` low, `elif turbidez > 1000` very high, `else` normal. -/
def categoriaDe (turbidez : ℚ) : Categoria :=
  if turbidez < 10 then .baja
  else if turbidez > 1000 then .muyAlta
  else .normal

/-- The value at `t` of the straight line through the points `p` and `q`. -/
def evalSegment (p q : ℚ × ℚ) (t : ℚ) : ℚ :=
  p.2 + (q.2 - p.2) * (t - p.1) / (q.1 - p.1)

/-- Piecewise-linear evaluation over a list of at least two knots sorted by
abscissa, extrapolating linearly from the first and last segments: the
model of what `interp1d(..., fill_value="extrapolate")` computes. -/
def interpPairs : List (ℚ × ℚ) → ℚ → ℚ
  | [p, q], t => evalSegment p q t
  | p :: q :: rest, t => if t ≤ q.1 then evalSegment p q t else interpPairs (q :: rest) t
  | _, _ => 0

/-- Embeds `interp1d(x_values, y_values, bounds_error=False,
fill_value="extrapolate")` followed by evaluation (`app.py` lines 713-714):
scipy requires at least 2 data points (`none` models the raised
`ValueError`), and otherwise evaluates everywhere, extrapolating linearly
outside the data range. -/
def interp1d (pairs : List (ℚ × ℚ)) (t : ℚ) : Option ℚ :=
  if pairs.length < 2 then none else some (interpPairs pairs t)

/-- Executable test that a list of rationals is strictly increasing. -/
def estrCreciente : List ℚ → Bool
  | a :: b :: l => decide (a < b) && estrCreciente (b :: l)
  | _ => true

/-- Success condition of `splrep(x_values, y_values, k=3)` (`app.py` line
709) in exact arithmetic: scipy requires more data points than the spline
degree (`m > k`, so at least 4) and strictly increasing knots, and with the
default interpolating smoothing factor the fit then succeeds. -/
def splrepOk (pairs : List (ℚ × ℚ)) : Bool :=
  decide (3 < pairs.length) && estrCreciente (pairs.map Prod.fst)

/-- Error surfaced when both fitting strategies fail: the model of the
outer `except` handler of `app.py` lines 828-831. -/
inductive EstimError where
  | estimationFailed
deriving DecidableEq, Repr

/-- The structured result of one estimation (`app.py` lines 706-732). -/
structure EstimationResult where
  dosis_sugerida : ℚ
  metodo : Metodo
  categoria : Categoria
deriving DecidableEq, Repr

/-- Embeds the estimator (`app.py` lines 706-732), parameterized by the
abstract value `splev pairs t` returned by the fitted cubic spline: try
`splrep`/`splev`; on failure fall back to `interp1d` with extrapolation; on
failure of both, the outer handler reports an error.  The raw value is
clamped with `max(dosis_sugerida, 0)` (line 718) and the category is
computed from the query turbidity alone (lines 721-732). -/
def estimate (splev : List (ℚ × ℚ) → ℚ → ℚ) (pairs : List (ℚ × ℚ)) (turbidez : ℚ) :
    Except EstimError EstimationResult :=
  if splrepOk pairs then
    .ok ⟨max (splev pairs turbidez) 0, .splineCubico, categoriaDe turbidez⟩
  else
    match interp1d pairs turbidez with
    | some v => .ok ⟨max v 0, .interpolacionLineal, categoriaDe turbidez⟩
    | none => .error .estimationFailed

/-- The errors the whole query pipeline can surface to the caller. -/
inductive AppError where
  | emptyDataset
  | noFlowData
  | estimationFailed
deriving DecidableEq, Repr

/-- Embeds the flow-regime selection step (`app.py` lines 682-691): pick
the available flow nearest to the requested one, or stop with an error
when there are no flow values at all. -/
def seleccionarCaudal (rows : List Row) (caudal : ℚ) : Except AppError ℚ :=
  match caudal_calculo caudal (caudales_disponibles rows) with
  | some c => .ok c
  | none => .error .noFlowData

/-- The whole query pipeline (`app.py` lines 269-287 and 676-732): load
and clean the table, stop if it is empty, select the flow regime, prepare
the per-flow dataset, and estimate.  The `ph` input is accepted (it is
displayed and logged by the surrounding page) but never used by the
computation. -/
def procesar (splev : List (ℚ × ℚ) → ℚ → ℚ) (raw : List RawRow)
    (turbidez ph caudal : ℚ) : Except AppError EstimationResult :=
  let _ := ph
  let data := load_data raw
  if data.isEmpty then .error .emptyDataset
  else
    match seleccionarCaudal data caudal with
    | .error e => .error e
    | .ok c =>
        match estimate splev (data_caudal data c) turbidez with
        | .ok r => .ok r
        | .error _ => .error .estimationFailed

/-! Helper definitions and lemmas shared by several claims. -/

/-- A trivial stand-in spline evaluator used to instantiate the abstract
`splev` parameter of `estimate` on concrete inputs. -/
def splev0 : List (ℚ × ℚ) → ℚ → ℚ := fun _ _ => 0

/-- The executable strict-increase test agrees with `List.Chain'`. -/
theorem estrCreciente_iff : ∀ l : List ℚ, estrCreciente l = true ↔ l.Chain' (· < ·)
  | [] => by simp [estrCreciente]
  | [a] => by simp [estrCreciente]
  | a :: b :: l => by
    rw [List.chain'_cons, ← estrCreciente_iff (b :: l)]
    simp [estrCreciente]

/-- The executable `splrep` success test, as a proposition. -/
theorem splrepOk_iff (pairs : List (ℚ × ℚ)) :
    splrepOk pairs = true ↔ 3 < pairs.length ∧ (pairs.map Prod.fst).Chain' (· < ·) := by
  simp [splrepOk, estrCreciente_iff]

/-- With a single data point both `splrep` (needs more than 3 points) and
`interp1d` (needs at least 2 points) fail, so the estimator reports the
error of the outer handler. -/
theorem estimate_one (splev : List (ℚ × ℚ) → ℚ → ℚ) (p : ℚ × ℚ) (t : ℚ) :
    estimate splev [p] t = .error .estimationFailed := by
  unfold estimate
  rw [if_neg (by simp [splrepOk])]
  simp [interp1d]

/-- Evaluating `estimate` on a successful branch always yields the clamped
dose and the turbidity category. -/
theorem estimate_ok_shape (splev : List (ℚ × ℚ) → ℚ → ℚ) (pairs : List (ℚ × ℚ))
    (turbidez : ℚ) (r : EstimationResult) (h : estimate splev pairs turbidez = .ok r) :
    0 ≤ r.dosis_sugerida ∧ r.categoria = categoriaDe turbidez := by
  unfold estimate at h
  split at h
  · cases h; exact ⟨le_max_right _ _, rfl⟩
  · split at h
    · cases h; exact ⟨le_max_right _ _, rfl⟩
    · exact absurd h (by simp)

/-! Claim theorems. -/

/-- C2: for every input dataset and every query turbidity, the dose in a
returned `EstimationResult` is at least `0`: the raw interpolated or
extrapolated value is floored at `0` (`max(dosis_sugerida, 0)`, `app.py`
line 718) before being returned. -/
theorem dosis_nonneg (splev : List (ℚ × ℚ) → ℚ → ℚ) (pairs : List (ℚ × ℚ))
    (turbidez : ℚ) (r : EstimationResult)
    (h : estimate splev pairs turbidez = .ok r) : 0 ≤ r.dosis_sugerida :=
  (estimate_ok_shape splev pairs turbidez r h).1

/-- Witness for `dosis_nonneg` on a concrete two-point dataset. -/
theorem dosis_nonneg_witness :
    (0 : ℚ) ≤ (EstimationResult.mk (max (interpPairs [(1, 2), (2, 3)] 500) 0)
      .interpolacionLineal .normal).dosis_sugerida :=
  dosis_nonneg splev0 [(1, 2), (2, 3)] 500 _ (by rfl)

/-- C3: the category of every returned result equals `categoriaDe` of the
query turbidity alone, independently of the dataset, the flow and the
fitted curve; the classification maps turbidity below 10 to low, between
10 and 1000 inclusive to normal, and above 1000 to very high, so both 10
and 1000 are normal. -/
theorem categoria_pure (splev : List (ℚ × ℚ) → ℚ → ℚ) (pairs : List (ℚ × ℚ))
    (turbidez : ℚ) (r : EstimationResult)
    (h : estimate splev pairs turbidez = .ok r) :
    r.categoria = categoriaDe turbidez ∧
    (turbidez < 10 → categoriaDe turbidez = .baja) ∧
    (10 ≤ turbidez → turbidez ≤ 1000 → categoriaDe turbidez = .normal) ∧
    (1000 < turbidez → categoriaDe turbidez = .muyAlta) ∧
    categoriaDe 10 = .normal ∧ categoriaDe 1000 = .normal := by
  refine ⟨(estimate_ok_shape splev pairs turbidez r h).2, ?_, ?_, ?_, by decide, by decide⟩
  · intro hlt; unfold categoriaDe; rw [if_pos hlt]
  · intro h10 h1000; unfold categoriaDe
    rw [if_neg (by linarith), if_neg (by simpa using h1000)]
  · intro hgt; unfold categoriaDe
    rw [if_neg (by linarith), if_pos (by simpa using hgt)]

/-- Witness for `categoria_pure` on a concrete two-point dataset with
turbidity 500. -/
theorem categoria_pure_witness :
    (EstimationResult.mk (max (interpPairs [(1, 2), (2, 3)] 500) 0)
      .interpolacionLineal .normal).categoria = categoriaDe 500 ∧
    ((500 : ℚ) < 10 → categoriaDe 500 = .baja) ∧
    ((10 : ℚ) ≤ 500 → (500 : ℚ) ≤ 1000 → categoriaDe 500 = .normal) ∧
    ((1000 : ℚ) < 500 → categoriaDe 500 = .muyAlta) ∧
    categoriaDe 10 = .normal ∧ categoriaDe 1000 = .normal :=
  categoria_pure splev0 [(1, 2), (2, 3)] 500 _ (by rfl)

/-- C6: the `ph` input has no effect on the computed result: two runs of
the pipeline agreeing on the dataset, the query turbidity and the flow but
differing in `ph` return identical results. -/
theorem ph_no_effect (splev : List (ℚ × ℚ) → ℚ → ℚ) (raw : List RawRow)
    (turbidez ph₁ ph₂ caudal : ℚ) :
    procesar splev raw turbidez ph₁ caudal = procesar splev raw turbidez ph₂ caudal := rfl

/-- C9: when the table has no flow values at all, the regime-selection
step stops with the no-flow-data error (`app.py` lines 689-691). -/
theorem no_flow_error (rows : List Row) (caudal : ℚ)
    (h : rows.map Row.caudal = []) :
    seleccionarCaudal rows caudal = .error .noFlowData := by
  have hc : caudales_disponibles rows = [] := by
    unfold caudales_disponibles; rw [h]; rfl
  simp [seleccionarCaudal, hc, caudal_calculo]

/-- Witness for `no_flow_error` at the empty table. -/
theorem no_flow_error_witness : seleccionarCaudal [] 5 = .error .noFlowData :=
  no_flow_error [] 5 rfl

/-- C10: on a prepared dataset with exactly one point the estimator fails
(both the spline and the two-point-minimum linear interpolation are
unusable) and, run through the whole pipeline on a one-row table, the
error is surfaced to the caller. -/
theorem singleton_both_fail (splev : List (ℚ × ℚ) → ℚ → ℚ) (p : ℚ × ℚ)
    (turbidez ph caudal : ℚ) :
    estimate splev [p] turbidez = .error .estimationFailed ∧
    procesar splev [⟨200, some 50, some 10⟩] turbidez ph caudal =
      .error .estimationFailed := by
  refine ⟨estimate_one splev p turbidez, ?_⟩
  show (match estimate splev [((50 : ℚ), (10 : ℚ))] turbidez with
        | .ok r => Except.ok r
        | .error _ => Except.error AppError.estimationFailed) = .error .estimationFailed
  rw [estimate_one]

/-- C7: rows whose turbidity or dose fail numeric coercion are dropped by
`load_data` (membership in the cleaned table is exactly successful
coercion of both columns), and when every row fails (all rows
non-numeric) the pipeline stops with the empty-dataset error. -/
theorem clean_and_empty_check (splev : List (ℚ × ℚ) → ℚ → ℚ) (raw : List RawRow)
    (turbidez ph caudal : ℚ) :
    (∀ r : Row, r ∈ load_data raw ↔
       ∃ rr ∈ raw, rr.caudal = r.caudal ∧ rr.turbiedad = some r.turbiedad ∧
         rr.dosis_mg_l = some r.dosis_mg_l) ∧
    ((∀ rr ∈ raw, rr.turbiedad = none ∨ rr.dosis_mg_l = none) →
       procesar splev raw turbidez ph caudal = .error .emptyDataset) := by
  constructor
  · intro r
    unfold load_data
    rw [List.mem_filterMap]
    constructor
    · rintro ⟨rr, hrr, hm⟩
      rcases ht : rr.turbiedad with _ | t <;> rcases hd : rr.dosis_mg_l with _ | d <;>
        rw [ht, hd] at hm
      · exact absurd hm (by simp)
      · exact absurd hm (by simp)
      · exact absurd hm (by simp)
      · cases Option.some.inj hm
        exact ⟨rr, hrr, rfl, ht, hd⟩
    · rintro ⟨rr, hrr, hc, ht, hd⟩
      refine ⟨rr, hrr, ?_⟩
      rw [ht, hd, hc]
  · intro hall
    have hnil : load_data raw = [] := by
      rw [load_data, List.filterMap_eq_nil_iff]
      intro rr hrr
      rcases hall rr hrr with h | h
      · rw [h]
      · rw [h]
        cases rr.turbiedad <;> rfl
    simp [procesar, hnil]

/-- Witness for `clean_and_empty_check` on a one-row table whose turbidity
is non-numeric. -/
theorem clean_and_empty_check_witness :
    procesar splev0 [⟨1, none, some 2⟩] 3 7 200 = .error .emptyDataset :=
  (clean_and_empty_check splev0 [⟨1, none, some 2⟩] 3 7 200).2 (by decide)

/-- C1 (amended): on a prepared dataset with strictly increasing turbidity
knots, at least 4 points yield a successful spline fit reported as the
cubic-spline method; with 2 or 3 points the spline fit fails, the linear
fallback is used without surfacing any error, and the method names the
fallback.  (With exactly 1 point both strategies fail; see the
counterexample.) -/
theorem method_by_points (splev : List (ℚ × ℚ) → ℚ → ℚ) (pairs : List (ℚ × ℚ))
    (turbidez : ℚ) :
    (3 < pairs.length → ((pairs.map Prod.fst).Chain' (· < ·)) →
       estimate splev pairs turbidez =
         .ok ⟨max (splev pairs turbidez) 0, .splineCubico, categoriaDe turbidez⟩) ∧
    (2 ≤ pairs.length → pairs.length ≤ 3 →
       estimate splev pairs turbidez =
         .ok ⟨max (interpPairs pairs turbidez) 0, .interpolacionLineal,
              categoriaDe turbidez⟩) := by
  constructor
  · intro h4 hs
    unfold estimate
    rw [if_pos ((splrepOk_iff pairs).mpr ⟨h4, hs⟩)]
  · intro h2 h3
    unfold estimate
    rw [if_neg (fun hc => absurd ((splrepOk_iff pairs).mp hc).1 (by omega))]
    unfold interp1d
    rw [if_neg (by omega)]

/-- Counterexample to C1 as stated: a prepared dataset with a single point
has fewer than 4 points, yet the estimator does not return the linear
method — it returns the failure of both strategies. -/
theorem method_by_points_cex :
    estimate splev0 [((50 : ℚ), (10 : ℚ))] 30 = .error .estimationFailed :=
  estimate_one splev0 (50, 10) 30

/-- Witness for `method_by_points` on concrete 4-point and 2-point
datasets. -/
theorem method_by_points_witness :
    estimate splev0 [((1 : ℚ), (1 : ℚ)), (2, 2), (3, 3), (4, 4)] 5 =
      .ok ⟨max (splev0 [((1 : ℚ), (1 : ℚ)), (2, 2), (3, 3), (4, 4)] 5) 0,
           .splineCubico, categoriaDe 5⟩ ∧
    estimate splev0 [((1 : ℚ), (1 : ℚ)), (2, 2)] 5 =
      .ok ⟨max (interpPairs [((1 : ℚ), (1 : ℚ)), (2, 2)] 5) 0,
           .interpolacionLineal, categoriaDe 5⟩ :=
  ⟨(method_by_points splev0 _ 5).1 (by decide) (by norm_num [List.chain'_cons]),
   (method_by_points splev0 _ 5).2 (by decide) (by decide)⟩

/-- The fold implementing Python's `min(..., key=lambda x: abs(x - q))`
keeps the first element attaining the minimal key; over an ascending list
the selected element therefore has minimal key and, among equal keys, the
smallest value. -/
theorem mejorCaudal_spec (q : ℚ) : ∀ (l : List ℚ) (a : ℚ), (a :: l).Sorted (· ≤ ·) →
    mejorCaudal q a l ∈ a :: l ∧
    ∀ x ∈ a :: l, |mejorCaudal q a l - q| < |x - q| ∨
      (|mejorCaudal q a l - q| = |x - q| ∧ mejorCaudal q a l ≤ x) := by
  intro l
  induction l with
  | nil =>
    intro a _
    refine ⟨List.mem_cons_self a [], ?_⟩
    intro x hx
    rcases List.mem_singleton.mp hx with rfl
    exact Or.inr ⟨rfl, le_refl _⟩
  | cons b l ih =>
    intro a hsort
    rw [show mejorCaudal q a (b :: l) =
          mejorCaudal q (if |b - q| < |a - q| then b else a) l from rfl]
    have htail : (b :: l).Sorted (· ≤ ·) := (List.sorted_cons.mp hsort).2
    have hab : a ≤ b := (List.sorted_cons.mp hsort).1 b (List.mem_cons_self b l)
    by_cases hba : |b - q| < |a - q|
    · rw [if_pos hba]
      obtain ⟨hmem, hmin⟩ := ih b htail
      refine ⟨List.mem_cons_of_mem a hmem, ?_⟩
      intro x hx
      rcases List.mem_cons.mp hx with rfl | hx'
      · rcases hmin b (List.mem_cons_self b l) with h | ⟨h, _⟩
        · exact Or.inl (h.trans hba)
        · exact Or.inl (h ▸ hba)
      · exact hmin x hx'
    · rw [if_neg hba]
      have hsort' : (a :: l).Sorted (· ≤ ·) := by
        rw [List.sorted_cons] at hsort ⊢
        exact ⟨fun y hy => hsort.1 y (List.mem_cons_of_mem b hy),
               (List.sorted_cons.mp hsort.2).2⟩
      obtain ⟨hmem, hmin⟩ := ih a hsort'
      have han : |a - q| ≤ |b - q| := not_lt.mp hba
      constructor
      · rcases List.mem_cons.mp hmem with h | h
        · rw [h]; exact List.mem_cons_self _ _
        · exact List.mem_cons_of_mem a (List.mem_cons_of_mem b h)
      · intro x hx
        rcases List.mem_cons.mp hx with rfl | hx'
        · exact hmin _ (List.mem_cons_self _ _)
        rcases List.mem_cons.mp hx' with rfl | hx''
        · rcases hmin a (List.mem_cons_self a l) with h | ⟨h, hra⟩
          · exact Or.inl (lt_of_lt_of_le h han)
          · rcases lt_or_eq_of_le han with hlt | heq
            · exact Or.inl (h ▸ hlt)
            · exact Or.inr ⟨h.trans heq, hra.trans hab⟩
        · exact hmin x (List.mem_cons_of_mem a hx'')

/-- C4: for every non-empty table, the regime selection picks, among the
distinct flow values present, one attaining the minimal absolute distance
to the requested flow, breaking ties by the first candidate in ascending
order (the smallest such flow); in particular flows 150, 200, 250 with
request 210 select 200. -/
theorem regime_nearest (rows : List Row) (q : ℚ) (hne : rows ≠ []) :
    (∃ c, caudal_calculo q (caudales_disponibles rows) = some c ∧
       c ∈ caudales_disponibles rows ∧
       (∀ x ∈ caudales_disponibles rows, |c - q| ≤ |x - q|) ∧
       (∀ x ∈ caudales_disponibles rows, |x - q| = |c - q| → c ≤ x)) ∧
    caudal_calculo 210 (caudales_disponibles [⟨150, 1, 1⟩, ⟨200, 1, 1⟩, ⟨250, 1, 1⟩]) =
      some 200 := by
  constructor
  · have hcdne : caudales_disponibles rows ≠ [] := by
      intro h
      apply hne
      have hperm := List.perm_insertionSort (· ≤ ·) ((rows.map Row.caudal).dedup)
      rw [caudales_disponibles] at h
      rw [h] at hperm
      have hd : (rows.map Row.caudal).dedup = [] := (hperm.symm).eq_nil
      rw [List.dedup_eq_nil] at hd
      exact List.map_eq_nil_iff.mp hd
    rcases hcd : caudales_disponibles rows with _ | ⟨a, l⟩
    · exact absurd hcd hcdne
    have hsorted : (a :: l).Sorted (· ≤ ·) := by
      rw [← hcd]; exact List.sorted_insertionSort _ _
    obtain ⟨hmem, hmin⟩ := mejorCaudal_spec q l a hsorted
    refine ⟨mejorCaudal q a l, rfl, hmem, ?_, ?_⟩
    · intro x hx
      rcases hmin x hx with h | ⟨h, _⟩
      · exact le_of_lt h
      · exact le_of_eq h
    · intro x hx heq
      rcases hmin x hx with h | ⟨_, hle⟩
      · exact absurd (heq ▸ h) (lt_irrefl _)
      · exact hle
  · have hc : caudales_disponibles [⟨150, 1, 1⟩, ⟨200, 1, 1⟩, ⟨250, 1, 1⟩] =
        [150, 200, 250] := by decide
    rw [hc]
    show some (mejorCaudal 210 150 [200, 250]) = some 200
    have h1 : |(200 : ℚ) - 210| < |(150 : ℚ) - 210| := by
      rw [abs_of_nonpos (by norm_num), abs_of_nonpos (by norm_num)]; norm_num
    have h2 : ¬ (|(250 : ℚ) - 210| < |(200 : ℚ) - 210|) := by
      rw [abs_of_nonneg (by norm_num), abs_of_nonpos (by norm_num)]; norm_num
    unfold mejorCaudal
    rw [List.foldl_cons, List.foldl_cons, List.foldl_nil, if_pos h1, if_neg h2]

/-- Witness for `regime_nearest` on the concrete three-flow table. -/
theorem regime_nearest_witness :
    (∃ c, caudal_calculo 210
        (caudales_disponibles [⟨150, 1, 1⟩, ⟨200, 1, 1⟩, ⟨250, 1, 1⟩]) = some c ∧
       c ∈ caudales_disponibles [⟨150, 1, 1⟩, ⟨200, 1, 1⟩, ⟨250, 1, 1⟩] ∧
       (∀ x ∈ caudales_disponibles [⟨150, 1, 1⟩, ⟨200, 1, 1⟩, ⟨250, 1, 1⟩],
          |c - 210| ≤ |x - 210|) ∧
       (∀ x ∈ caudales_disponibles [⟨150, 1, 1⟩, ⟨200, 1, 1⟩, ⟨250, 1, 1⟩],
          |x - 210| = |c - 210| → c ≤ x)) ∧
    caudal_calculo 210 (caudales_disponibles [⟨150, 1, 1⟩, ⟨200, 1, 1⟩, ⟨250, 1, 1⟩]) =
      some 200 :=
  regime_nearest [⟨150, 1, 1⟩, ⟨200, 1, 1⟩, ⟨250, 1, 1⟩] 210 (by decide)

/-- Unfolding step of `interpPairs` on a list of at least three knots. -/
theorem interpPairs_step (a b : ℚ × ℚ) (l : List (ℚ × ℚ)) (hl : l ≠ []) (t : ℚ) :
    interpPairs (a :: b :: l) t =
      if t ≤ b.1 then evalSegment a b t else interpPairs (b :: l) t := by
  cases l with
  | nil => exact absurd rfl hl
  | cons c l' => rfl

/-- Below the second knot (in particular, below the whole data range) the
piecewise-linear evaluation uses the first segment. -/
theorem interpPairs_head (p q : ℚ × ℚ) (l : List (ℚ × ℚ)) (t : ℚ) (ht : t ≤ q.1) :
    interpPairs (p :: q :: l) t = evalSegment p q t := by
  cases l with
  | nil => rfl
  | cons c l' => rw [interpPairs_step p q (c :: l') (by simp) t, if_pos ht]

/-- At or above the last knot the piecewise-linear evaluation uses the
last segment, that is, it extrapolates linearly from it. -/
theorem interpPairs_last (t : ℚ) : ∀ (l : List (ℚ × ℚ)) (p q : ℚ × ℚ),
    (((l ++ [p, q]).map Prod.fst).Pairwise (· < ·)) → q.1 ≤ t →
    interpPairs (l ++ [p, q]) t = evalSegment p q t := by
  intro l
  induction l with
  | nil => intro p q _ _; rfl
  | cons a l' ih =>
    intro p q hpw hqt
    cases l' with
    | nil =>
      have hpq : p.1 < q.1 := by
        simp only [List.cons_append, List.nil_append, List.map_cons] at hpw
        exact List.rel_of_pairwise_cons (List.Pairwise.of_cons hpw) (by simp)
      rw [show ([a] ++ [p, q] : List (ℚ × ℚ)) = a :: p :: [q] by simp,
          interpPairs_step a p [q] (by simp) t,
          if_neg (not_le.mpr (lt_of_lt_of_le hpq hqt))]
      rfl
    | cons b l'' =>
      have hpw' : (((b :: l'') ++ [p, q]).map Prod.fst).Pairwise (· < ·) := by
        simp only [List.cons_append, List.map_cons] at hpw ⊢
        exact List.Pairwise.of_cons hpw
      have hbq : b.1 < q.1 := by
        simp only [List.cons_append, List.map_cons] at hpw'
        exact List.rel_of_pairwise_cons hpw' (by simp)
      rw [show ((a :: b :: l'') ++ [p, q] : List (ℚ × ℚ)) =
            a :: b :: (l'' ++ [p, q]) by simp,
          interpPairs_step a b (l'' ++ [p, q]) (by simp) t,
          if_neg (not_le.mpr (lt_of_lt_of_le hbq hqt)),
          show (b :: (l'' ++ [p, q]) : List (ℚ × ℚ)) = (b :: l'') ++ [p, q] by simp]
      exact ih p q hpw' hqt

/-- C8: whenever the linear fallback is used on a usable dataset (at least
two points), every query — also one outside the observed turbidity range —
is answered without error; a query at or below the second knot is answered
by the line through the first two points, and a query at or beyond the
last knot by the line through the last two points (linear
extrapolation). -/
theorem fallback_extrapolates (splev : List (ℚ × ℚ) → ℚ → ℚ) (p q : ℚ × ℚ)
    (l : List (ℚ × ℚ)) (t : ℚ) :
    (splrepOk (p :: q :: l) = false →
       estimate splev (p :: q :: l) t =
         .ok ⟨max (interpPairs (p :: q :: l) t) 0, .interpolacionLineal,
              categoriaDe t⟩) ∧
    (t ≤ q.1 → interpPairs (p :: q :: l) t = evalSegment p q t) ∧
    (∀ (l' : List (ℚ × ℚ)) (p' q' : ℚ × ℚ), p :: q :: l = l' ++ [p', q'] →
       (((p :: q :: l).map Prod.fst).Pairwise (· < ·)) → q'.1 ≤ t →
       interpPairs (p :: q :: l) t = evalSegment p' q' t) := by
  refine ⟨?_, fun ht => interpPairs_head p q l t ht, ?_⟩
  · intro h
    unfold estimate
    rw [h, if_neg (by simp)]
    unfold interp1d
    rw [if_neg (by simp only [List.length_cons]; omega)]
  · intro l' p' q' heq hpw hqt
    rw [heq] at hpw ⊢
    exact interpPairs_last t l' p' q' hpw hqt

/-- Witness for `fallback_extrapolates` on a concrete two-point dataset
queried far beyond its range. -/
theorem fallback_extrapolates_witness :
    estimate splev0 [((0 : ℚ), (0 : ℚ)), (1, 1)] 5 =
      .ok ⟨max (interpPairs [((0 : ℚ), (0 : ℚ)), (1, 1)] 5) 0, .interpolacionLineal,
           categoriaDe 5⟩ ∧
    interpPairs [((0 : ℚ), (0 : ℚ)), (1, 1)] 5 = evalSegment (0, 0) (1, 1) 5 :=
  ⟨(fallback_extrapolates splev0 (0, 0) (1, 1) [] 5).1 (by rfl),
   (fallback_extrapolates splev0 (0, 0) (1, 1) [] 5).2.2 [] (0, 0) (1, 1) rfl
     (by norm_num [List.pairwise_cons]) (by norm_num)⟩

/-- The mean is invariant under permutation of the list. -/
theorem media_perm {l l' : List ℚ} (h : l.Perm l') : media l = media l' := by
  unfold media
  rw [h.sum_eq, h.length_eq]

/-- In a list of rows with pairwise distinct turbidity values, filtering
by the turbidity of a member returns exactly that member. -/
theorem filter_turb_single : ∀ (l : List Row) (r : Row), r ∈ l →
    (l.map Row.turbiedad).Nodup →
    l.filter (fun r' => decide (r'.turbiedad = r.turbiedad)) = [r] := by
  intro l
  induction l with
  | nil => intro r hr _; exact absurd hr (List.not_mem_nil r)
  | cons a l ih =>
    intro r hr hnd
    rw [List.map_cons, List.nodup_cons] at hnd
    obtain ⟨hna, hnd'⟩ := hnd
    rcases List.mem_cons.mp hr with rfl | hr'
    · rw [List.filter_cons_of_pos (by simp)]
      have hrest : l.filter (fun r' => decide (r'.turbiedad = r.turbiedad)) = [] := by
        rw [List.filter_eq_nil_iff]
        intro x hx hpx
        have hxt : x.turbiedad = r.turbiedad := of_decide_eq_true hpx
        have hmem := List.mem_map_of_mem Row.turbiedad hx
        rw [hxt] at hmem
        exact hna hmem
      rw [hrest]
    · have hne : ¬ (decide (a.turbiedad = r.turbiedad) = true) := by
        simp only [decide_eq_true_eq]
        intro h
        have hmem := List.mem_map_of_mem Row.turbiedad hr'
        rw [← h] at hmem
        exact hna hmem
      rw [List.filter_cons, if_neg hne]
      exact ih r hr' hnd'

/-- Averaging the doses of the sorted-and-filtered rows at one turbidity
equals averaging over the original table filtered by flow and turbidity
together. -/
theorem media_filter_perm (rows : List Row) (c t : ℚ) :
    media ((((rows.filter fun r => decide (r.caudal = c)).insertionSort
        (fun a b => a.turbiedad ≤ b.turbiedad)).filter
        (fun r => decide (r.turbiedad = t))).map Row.dosis_mg_l) =
    media ((rows.filter fun r =>
        decide (r.caudal = c ∧ r.turbiedad = t)).map Row.dosis_mg_l) := by
  have hperm := List.Perm.filter (fun r => decide (r.turbiedad = t))
    (List.perm_insertionSort (fun a b : Row => a.turbiedad ≤ b.turbiedad)
      (rows.filter fun r => decide (r.caudal = c)))
  have heq : (rows.filter fun r => decide (r.caudal = c)).filter
      (fun r => decide (r.turbiedad = t)) =
      rows.filter (fun r => decide (r.caudal = c ∧ r.turbiedad = t)) := by
    rw [List.filter_filter]
    apply List.filter_congr
    intro a _
    by_cases h1 : a.caudal = c <;> by_cases h2 : a.turbiedad = t <;> simp [h1, h2]
  rw [← heq]
  exact media_perm (hperm.map Row.dosis_mg_l)

/-- A sort of a deduplicated list of rationals is strictly sorted. -/
theorem dedup_sort_strict (xs : List ℚ) :
    (xs.dedup.insertionSort (· ≤ ·)).Sorted (· < ·) := by
  have h1 : (xs.dedup.insertionSort (· ≤ ·)).Sorted (· ≤ ·) :=
    List.sorted_insertionSort _ _
  have h2 : (xs.dedup.insertionSort (· ≤ ·)).Nodup :=
    (List.perm_insertionSort _ _).symm.nodup (List.nodup_dedup xs)
  exact (h1.and h2).imp fun h => lt_of_le_of_ne h.1 h.2

/-- C5: for every table and selected flow, the prepared dataset is
strictly sorted by turbidity (hence all turbidity values are unique), each
output dose is the arithmetic mean of the doses of the input rows with
that flow and turbidity, and the two duplicate rows of the concrete
example collapse to the single averaged row `(50, 12)`. -/
theorem data_caudal_spec (rows : List Row) (c : ℚ) :
    ((data_caudal rows c).map Prod.fst).Sorted (· < ·) ∧
    (∀ p ∈ data_caudal rows c,
       p.2 = media ((rows.filter fun r =>
           decide (r.caudal = c ∧ r.turbiedad = p.1)).map Row.dosis_mg_l)) ∧
    data_caudal [⟨200, 50, 10⟩, ⟨200, 50, 14⟩] 200 = [(50, 12)] := by
  have hdc : data_caudal rows c =
      if ((((rows.filter fun r => decide (r.caudal = c)).insertionSort
            (fun a b => a.turbiedad ≤ b.turbiedad)).map Row.turbiedad).dedup.length <
          (((rows.filter fun r => decide (r.caudal = c)).insertionSort
            (fun a b => a.turbiedad ≤ b.turbiedad)).map Row.turbiedad).length) then
        ((((rows.filter fun r => decide (r.caudal = c)).insertionSort
            (fun a b => a.turbiedad ≤ b.turbiedad)).map Row.turbiedad).dedup.insertionSort
              (· ≤ ·)).map fun t =>
          (t, media ((((rows.filter fun r => decide (r.caudal = c)).insertionSort
              (fun a b => a.turbiedad ≤ b.turbiedad)).filter
                fun r => decide (r.turbiedad = t)).map Row.dosis_mg_l))
      else
        ((rows.filter fun r => decide (r.caudal = c)).insertionSort
            (fun a b => a.turbiedad ≤ b.turbiedad)).map fun r =>
          (r.turbiedad, r.dosis_mg_l) := rfl
  have hfsorted : ((rows.filter fun r => decide (r.caudal = c)).insertionSort
      (fun a b => a.turbiedad ≤ b.turbiedad)).Sorted
        (fun a b => a.turbiedad ≤ b.turbiedad) :=
    List.sorted_insertionSort _ _
  refine ⟨?_, ?_, ?_⟩
  · by_cases hdup : ((((rows.filter fun r => decide (r.caudal = c)).insertionSort
        (fun a b => a.turbiedad ≤ b.turbiedad)).map Row.turbiedad).dedup.length <
        (((rows.filter fun r => decide (r.caudal = c)).insertionSort
          (fun a b => a.turbiedad ≤ b.turbiedad)).map Row.turbiedad).length)
    · rw [hdc, if_pos hdup, List.map_map]
      have hid : (Prod.fst ∘ fun t : ℚ =>
          (t, media ((((rows.filter fun r => decide (r.caudal = c)).insertionSort
            (fun a b => a.turbiedad ≤ b.turbiedad)).filter
              fun r => decide (r.turbiedad = t)).map Row.dosis_mg_l))) = id := rfl
      rw [hid, List.map_id]
      exact dedup_sort_strict _
    · rw [hdc, if_neg hdup, List.map_map]
      have hle : ((((rows.filter fun r => decide (r.caudal = c)).insertionSort
          (fun a b => a.turbiedad ≤ b.turbiedad)).map Row.turbiedad)).Sorted (· ≤ ·) :=
        List.pairwise_map.mpr hfsorted
      have hsub := List.dedup_sublist (((rows.filter fun r =>
          decide (r.caudal = c)).insertionSort
            (fun a b => a.turbiedad ≤ b.turbiedad)).map Row.turbiedad)
      have hlen : ((((rows.filter fun r => decide (r.caudal = c)).insertionSort
          (fun a b => a.turbiedad ≤ b.turbiedad)).map Row.turbiedad)).dedup.length =
          ((((rows.filter fun r => decide (r.caudal = c)).insertionSort
            (fun a b => a.turbiedad ≤ b.turbiedad)).map Row.turbiedad)).length :=
        le_antisymm hsub.length_le (not_lt.mp hdup)
      have hnd : ((((rows.filter fun r => decide (r.caudal = c)).insertionSort
          (fun a b => a.turbiedad ≤ b.turbiedad)).map Row.turbiedad)).Nodup := by
        rw [← hsub.eq_of_length hlen]
        exact List.nodup_dedup _
      exact (hle.and hnd).imp fun h => lt_of_le_of_ne h.1 h.2
  · by_cases hdup : ((((rows.filter fun r => decide (r.caudal = c)).insertionSort
        (fun a b => a.turbiedad ≤ b.turbiedad)).map Row.turbiedad).dedup.length <
        (((rows.filter fun r => decide (r.caudal = c)).insertionSort
          (fun a b => a.turbiedad ≤ b.turbiedad)).map Row.turbiedad).length)
    · rw [hdc, if_pos hdup]
      intro p hp
      obtain ⟨t, _, rfl⟩ := List.mem_map.mp hp
      exact media_filter_perm rows c t
    · rw [hdc, if_neg hdup]
      intro p hp
      obtain ⟨r, hr, rfl⟩ := List.mem_map.mp hp
      have hsub := List.dedup_sublist (((rows.filter fun r =>
          decide (r.caudal = c)).insertionSort
            (fun a b => a.turbiedad ≤ b.turbiedad)).map Row.turbiedad)
      have hlen : ((((rows.filter fun r => decide (r.caudal = c)).insertionSort
          (fun a b => a.turbiedad ≤ b.turbiedad)).map Row.turbiedad)).dedup.length =
          ((((rows.filter fun r => decide (r.caudal = c)).insertionSort
            (fun a b => a.turbiedad ≤ b.turbiedad)).map Row.turbiedad)).length :=
        le_antisymm hsub.length_le (not_lt.mp hdup)
      have hnd : ((((rows.filter fun r => decide (r.caudal = c)).insertionSort
          (fun a b => a.turbiedad ≤ b.turbiedad)).map Row.turbiedad)).Nodup := by
        rw [← hsub.eq_of_length hlen]
        exact List.nodup_dedup _
      rw [← media_filter_perm rows c r.turbiedad,
          filter_turb_single _ r hr hnd]
      simp [media]
  · have h1 : data_caudal [⟨200, 50, 10⟩, ⟨200, 50, 14⟩] 200 =
        [(50, media [10, 14])] := rfl
    rw [h1]
    norm_num [media, List.sum_cons, List.sum_nil]

/-- Witness for `data_caudal_spec`, checking the averaged dose of the
deduplicated row of the concrete example. -/
theorem data_caudal_spec_witness :
    ((50 : ℚ), (12 : ℚ)).2 = media (([⟨200, 50, 10⟩, ⟨200, 50, 14⟩].filter fun r =>
      decide (r.caudal = 200 ∧ r.turbiedad = ((50 : ℚ), (12 : ℚ)).1)).map
        Row.dosis_mg_l) :=
  (data_caudal_spec [⟨200, 50, 10⟩, ⟨200, 50, 14⟩] 200).2.1 (50, 12)
    (by rw [(data_caudal_spec [⟨200, 50, 10⟩, ⟨200, 50, 14⟩] 200).2.2]; simp)

end Dosificacion
